import Mathlib

set_option maxRecDepth 8000

/-! Verification of the DevSite export component of the softplus/web.dev
repository (src/site/_includes/components/Export.js).  The development
embeds, over lists of characters:

* the placeholder protector (the pluck and insert helpers imported from
  src/site/_utils/pluck-insert, modelled from the spec because that module
  is not part of the sources);
* the dialect rewriter (the transform function, Export.js lines 51-118);
* the export path resolver and the export URL map (lines 194-213);
* the export orchestrator itself (the Export function, lines 126-241).

Semantics of the JavaScript primitives used by the source are embedded
explicitly: String.prototype.replace with a global pattern scans the text
left to right, replaces non-overlapping matches and never rescans a
replacement; array indexing with a non-canonical numeric string yields
undefined, which a replacement callback renders as the text undefined. -/

abbrev Text := List Char

def strT (s : String) : Text := s.toList

/-! ### Decimal indices and JavaScript array lookup -/

/-- Fuel-driven decimal printer, taking the number itself plus one as fuel. -/
def natReprAux : Nat → Nat → Text
  | 0, _ => []
  | f + 1, n =>
    if n < 10 then [Char.ofNat (48 + n)]
    else natReprAux f (n / 10) ++ [Char.ofNat (48 + n % 10)]

/-- Decimal representation of a natural number, no sign, no leading zeros. -/
def natRepr (n : Nat) : Text := natReprAux (n + 1) n

/-- Numeric value of a digit string, most significant digit first. -/
def parseDigits (ds : Text) : Nat := ds.foldl (fun a c => a * 10 + (c.toNat - 48)) 0

/-- JavaScript array access list[ds] for a digit string ds captured from a
placeholder token: the lookup succeeds only when ds is the canonical decimal
form of an index inside the list; otherwise the access yields undefined,
modelled as none. -/
def jsGet (L : List Text) (ds : Text) : Option Text :=
  if natRepr (parseDigits ds) = ds then L.get? (parseDigits ds) else none

/-- Longest digit prefix of a text together with the remainder. -/
def takeDigits : Text → Text × Text
  | [] => ([], [])
  | c :: cs =>
    if c.isDigit then
      let r := takeDigits cs
      (c :: r.1, r.2)
    else ([], c :: cs)

/-! ### Generic scanning helpers -/

/-- First occurrence of a literal pattern: splitOnFirst pat s = some (a, b)
means s = a ++ pat ++ b and the occurrence is leftmost. -/
def splitOnFirst (pat : Text) : Text → Option (Text × Text)
  | [] => if pat = [] then some ([], []) else none
  | c :: cs =>
    if pat.isPrefixOf (c :: cs) then some ([], (c :: cs).drop pat.length)
    else (splitOnFirst pat cs).map (fun r => (c :: r.1, r.2))

/-- Global literal replacement, the semantics of text.replace with a global
literal pattern: leftmost match, continue after the replacement, never
rescan the replacement.  Fuel bounds the scan; one unit per consumed
character suffices. -/
def replaceAllF (pat rep : Text) : Nat → Text → Text
  | 0, s => s
  | f + 1, [] => []
  | f + 1, c :: cs =>
    if pat.isPrefixOf (c :: cs) then rep ++ replaceAllF pat rep f ((c :: cs).drop pat.length)
    else c :: replaceAllF pat rep f cs

def replaceAllW (pat rep s : Text) : Text := replaceAllF pat rep s.length s

/-- Split a text into its newline-separated lines. -/
def splitNl : Text → List Text
  | [] => [[]]
  | c :: cs =>
    if c = '\n' then [] :: splitNl cs
    else
      match splitNl cs with
      | [] => [[c]]
      | l :: ls => (c :: l) :: ls

/-- Rejoin lines with newlines, the inverse of splitNl. -/
def joinNl : List Text → Text
  | [] => []
  | [l] => l
  | l :: ls => l ++ '\n' :: joinNl ls

/-- Rest of the current line and the text after its newline, if any:
lineSplit r = some (line, rest) means r = line ++ newline ++ rest and line
is newline-free. -/
def lineSplit : Text → Option (Text × Text)
  | [] => none
  | c :: cs =>
    if c = '\n' then some ([], cs)
    else (lineSplit cs).map (fun r => (c :: r.1, r.2))

/-- Index of the last occurrence of a character. -/
def lastIdxOf (c : Char) : Text → Option Nat
  | [] => none
  | x :: xs =>
    match lastIdxOf c xs with
    | some j => some (j + 1)
    | none => if x = c then some 0 else none

/-! ### The placeholder protector (pluck and insert)

Modelled from the spec: the pluck-insert module
(src/site/_utils/pluck-insert.js) is imported by Export.js but is not under
the sources.  Per spec section 4.1, pluck scans the text for all
non-overlapping matches of a pattern, left to right, appends each matched
substring to the region list and replaces it in the text with the
placeholder token PREFIX_index; insert replaces every placeholder token of
that prefix with regionList[index].  A pattern is embedded as a
first-match function: find s = some (a, m, b) splits s into the text
before the leftmost match, the match itself, and the text after it. -/

def pluckF (find : Text → Option (Text × Text × Text)) (pfx : Text) :
    Nat → Nat → Text → List Text × Text
  | 0, _, s => ([], s)
  | f + 1, n, s =>
    match find s with
    | none => ([], s)
    | some (a, m, b) =>
      let r := pluckF find pfx f (n + 1) b
      (m :: r.1, a ++ (pfx ++ '_' :: (natRepr n ++ r.2)))

/-- pluck with an initially empty region list, as in transform and Export. -/
def pluck (find : Text → Option (Text × Text × Text)) (pfx s : Text) :
    List Text × Text :=
  pluckF find pfx (s.length + 1) 0 s

/-- Placeholder token starting at the head of s: some (ds, rest) means
s = pfx ++ underscore ++ ds ++ rest with ds the maximal nonempty digit
run, mirroring the regex PREFIX_(digits) used by insert. -/
def tokenAt (pfx : Text) (s : Text) : Option (Text × Text) :=
  if (pfx ++ ['_']).isPrefixOf s then
    let r := takeDigits (s.drop (pfx.length + 1))
    if r.1 = [] then none else some (r.1, r.2)
  else none

/-- Scan for placeholder tokens of a given prefix and replace each through
repl applied to its captured digit string; continue after the match. -/
def tokenReplaceF (repl : Text → Text) (pfx : Text) : Nat → Text → Text
  | 0, s => s
  | f + 1, [] => []
  | f + 1, c :: cs =>
    match tokenAt pfx (c :: cs) with
    | some (ds, rest) => repl ds ++ tokenReplaceF repl pfx f rest
    | none => c :: tokenReplaceF repl pfx f cs

def tokenReplace (repl : Text → Text) (pfx s : Text) : Text :=
  tokenReplaceF repl pfx s.length s

def undefinedText : Text := strT "undefined"

/-- Replacement performed by insert for one token: regionList[index],
rendered as the text undefined when the lookup misses. -/
def insRepl (L : List Text) (ds : Text) : Text := (jsGet L ds).getD undefinedText

/-- insert(regionList, placeholder, text) of the pluck-insert module. -/
def insertW (L : List Text) (pfx t : Text) : Text := tokenReplace (insRepl L) pfx t

/-! ### Concrete patterns -/

/-- Modelled from the spec: MULTI_LINE_CODE_PLACEHOLDER is defined in the
absent pluck-insert module; the spec only requires a sufficiently unique
prefix. -/
def MULTI_LINE_CODE_PLACEHOLDER : Text := strT "MULTI_LINE_CODE_PLACEHOLDER"

/-- Modelled from the spec: INLINE_CODE_PLACEHOLDER of the absent
pluck-insert module. -/
def INLINE_CODE_PLACEHOLDER : Text := strT "INLINE_CODE_PLACEHOLDER"

/-- RAW_PLACEHOLDER, Export.js line 44. -/
def RAW_PLACEHOLDER : Text := strT "RAW_PLACEHOLDER"

/-- Modelled from the spec: MULTI_LINE_CODE_PATTERN of the absent
pluck-insert module protects fenced multi-line code regions; a fenced
region runs from one triple-backtick fence to the next, inclusive. -/
def multiLineFind (s : Text) : Option (Text × Text × Text) :=
  match splitOnFirst (strT "```") s with
  | none => none
  | some (a, r) =>
    match splitOnFirst (strT "```") r with
    | none => none
    | some (m, b) => some (a, strT "```" ++ m ++ strT "```", b)

/-- Modelled from the spec: INLINE_CODE_PATTERN of the absent pluck-insert
module protects inline code spans, from one backtick to the next,
inclusive. -/
def inlineFind (s : Text) : Option (Text × Text × Text) :=
  match splitOnFirst (strT "`") s with
  | none => none
  | some (a, r) =>
    match splitOnFirst (strT "`") r with
    | none => none
    | some (m, b) => some (a, strT "`" ++ m ++ strT "`", b)

/-- Interior scan for the raw shortcode pattern: first endraw marker on the
current line, none if a newline intervenes (the dot of the pattern does not
cross lines). -/
def endRawSameLine : Text → Option (Text × Text)
  | [] => none
  | c :: cs =>
    if (strT "\x7b% endraw %\x7d").isPrefixOf (c :: cs) then
      some ([], (c :: cs).drop 12)
    else if c = '\n' then none
    else (endRawSameLine cs).map (fun r => (c :: r.1, r.2))

/-- RAW_SHORTCODE_PATTERN, Export.js line 43: a raw shortcode pair with a
lazily matched single-line interior. -/
def rawFind : Text → Option (Text × Text × Text)
  | [] => none
  | c :: cs =>
    if (strT "\x7b% raw %\x7d").isPrefixOf (c :: cs) then
      match endRawSameLine ((c :: cs).drop 9) with
      | some (mid, b) =>
        some ([], strT "\x7b% raw %\x7d" ++ mid ++ strT "\x7b% endraw %\x7d", b)
      | none => (rawFind cs).map (fun r => (c :: r.1, r.2.1, r.2.2))
    else (rawFind cs).map (fun r => (c :: r.1, r.2.1, r.2.2))

/-! ### The nested code block rewrite (Export.js lines 93-107) -/

/-- Opening fence rewrite, Export.js lines 99-102: every triple backtick,
the remainder of its line (the language hint) and the following newline
become a pre tag carrying the language as a class plus the escape-begin
marker; a fence with no following newline does not match. -/
def openFenceRep (lang : Text) : Text :=
  strT "<pre class=\"prettyprint lang-" ++ lang ++ strT "\">\x7b% htmlescape %\x7d\n"

def openFenceF : Nat → Text → Text
  | 0, s => s
  | f + 1, [] => []
  | f + 1, c :: cs =>
    if (strT "```").isPrefixOf (c :: cs) then
      match lineSplit ((c :: cs).drop 3) with
      | some (lang, rest) => openFenceRep lang ++ openFenceF f rest
      | none => c :: openFenceF f cs
    else c :: openFenceF f cs

def openFenceW (s : Text) : Text := openFenceF s.length s

def fenceMarker : Text := strT "```"

def closeFenceRep : Text := strT "\x7b% endhtmlescape %\x7d</pre>"

/-- Closing fence rewrite, Export.js line 103: every line consisting of
exactly a triple backtick becomes the escape-end marker followed by the
closing pre tag. -/
def closeFenceW (s : Text) : Text :=
  joinNl ((splitNl s).map (fun l => if l = fenceMarker then closeFenceRep else l))

/-- Fence rewrite applied to a code block found inside a div container,
Export.js lines 98-104. -/
def rewriteFences (cb : Text) : Text := closeFenceW (openFenceW cb)

/-- Replacement for a code placeholder token inside a matched div span,
Export.js lines 96-105: look the block up by index and rewrite its fences.
When the lookup misses, the source calls .replace on undefined and throws
a TypeError that propagates out of Export; transformThrowsB below marks
exactly those inputs, and this total function renders the throwing branch
as the literal text undefined. -/
def nestedRepl (cbs : List Text) (ds : Text) : Text :=
  ((jsGet cbs ds).map rewriteFences).getD undefinedText

def lowerEq (pat : Text) (s : Text) : Bool :=
  ((s.take pat.length).map Char.toLower) = pat

/-- First case-insensitive occurrence of a literal pattern (given in
lowercase): the analogue of splitOnFirst under the i flag. -/
def ciSplitFirst (pat : Text) : Text → Option (Text × Text)
  | [] => none
  | c :: cs =>
    if lowerEq pat (c :: cs) then some ([], (c :: cs).drop pat.length)
    else (ciSplitFirst pat cs).map (fun r => (c :: r.1, r.2))

/-- Indices of the closing angle brackets of a line, last first: the
backtracking order in which the greedy attribute group of the div pattern
tries its closing bracket. -/
def gtIdxsDesc (line : Text) : List Nat :=
  ((List.range line.length).filter (fun j => line.get? j == some '>')).reverse

/-- Candidate lengths consumed by the optional attribute group plus the
closing bracket of the div opening tag, in backtracking order: when the
character after the div name is a space, the greedy group tries the last
closing bracket on its line first and then each earlier one; without a
space the bracket must follow immediately. -/
def divOpenTails (r : Text) : List Nat :=
  match r with
  | ' ' :: r' =>
    (gtIdxsDesc (r'.takeWhile (fun c => c != '\n'))).map (fun j => j + 2)
  | '>' :: _ => [1]
  | _ => []

/-- Try each candidate opening-tag length in backtracking order, accepting
the first one followed by a closing div tag. -/
def divTryTails (s : Text) : List Nat → Option (Text × Text)
  | [] => none
  | k :: ks =>
    match ciSplitFirst (strT "</div>") (s.drop (4 + k)) with
    | some (mid, b) => some (s.take (4 + k + mid.length + 6), b)
    | none => divTryTails s ks

/-- Leftmost match of NESTED_MULTI_LINE_CODE_PATTERN (Export.js lines
38-41): a div opening tag with optional attributes, a lazily matched body
that may cross lines, and the nearest closing div tag, case-insensitive;
the greedy attribute group backtracks over the closing brackets of its
line, as the regex engine does. -/
def divFind : Text → Option (Text × Text × Text)
  | [] => none
  | c :: cs =>
    if lowerEq (strT "<div") (c :: cs) then
      match divTryTails (c :: cs) (divOpenTails ((c :: cs).drop 4)) with
      | some (m, b) => some ([], m, b)
      | none => (divFind cs).map (fun r => (c :: r.1, r.2.1, r.2.2))
    else (divFind cs).map (fun r => (c :: r.1, r.2.1, r.2.2))

/-- The nested code rewrite, Export.js lines 94-107: inside every matched
div span, each fenced-code placeholder token is replaced by its code block
with rewritten fences; the text outside matched spans is untouched. -/
def rewriteNestedDivsF (cbs : List Text) : Nat → Text → Text
  | 0, s => s
  | f + 1, s =>
    match divFind s with
    | some (a, m, b) =>
      a ++ tokenReplace (nestedRepl cbs) MULTI_LINE_CODE_PLACEHOLDER m ++
        rewriteNestedDivsF cbs f b
    | none => s

def rewriteNestedDivsW (cbs : List Text) (s : Text) : Text :=
  rewriteNestedDivsF cbs s.length s

/-! ### The dialect rewriter (transform, Export.js lines 51-118) -/

/-- The float-left and float-right figure rewrite, Export.js lines 70-73:
the two alternatives of the pattern collapse a floated figure opening tag
to a bare figure tag. -/
def replaceFloatF : Nat → Text → Text
  | 0, s => s
  | f + 1, [] => []
  | f + 1, c :: cs =>
    if (strT "<figure class=\"float-left\">").isPrefixOf (c :: cs) then
      strT "<figure>" ++ replaceFloatF f ((c :: cs).drop 27)
    else if (strT "<figure class=\"float-right\">").isPrefixOf (c :: cs) then
      strT "<figure>" ++ replaceFloatF f ((c :: cs).drop 28)
    else c :: replaceFloatF f cs

def replaceFloatW (s : Text) : Text := replaceFloatF s.length s

/-- The protection passes and the five structural class rewrites of
transform, Export.js lines 51-91: the pipeline state just before the
nested code rewrite, together with the code and inline region lists. -/
def transformPre (markdown : Text) : List Text × List Text × Text :=
  let codeRes := pluck multiLineFind MULTI_LINE_CODE_PLACEHOLDER markdown
  let inlineRes := pluck inlineFind INLINE_CODE_PLACEHOLDER codeRes.2
  let t := replaceFloatW inlineRes.2
  let t := replaceAllW (strT "<figcaption>") (strT "<figcaption class=\"wd-caption\">") t
  let t := replaceAllW (strT "<figure class=\"screenshot\">") (strT "<figure>") t
  let t := replaceAllW (strT "class=\"switcher\"") (strT "class=\"wd-switcher\"") t
  let t := replaceAllW (strT "class=\"stats") (strT "class=\"wd-stats") t
  (codeRes.1, inlineRes.1, t)

/-- transform, Export.js lines 51-118. -/
def transformT (markdown : Text) : Text :=
  let pre := transformPre markdown
  let t := rewriteNestedDivsW pre.1 pre.2.2
  let t := insertW pre.1 MULTI_LINE_CODE_PLACEHOLDER t
  let t := insertW pre.2.1 INLINE_CODE_PLACEHOLDER t
  let t := replaceAllW (strT "\x7b% raw %\x7d") (strT "\x7b% verbatim %\x7d") t
  replaceAllW (strT "\x7b% endraw %\x7d") (strT "\x7b% endverbatim %\x7d") t

/-- True when the text holds a placeholder token of the given prefix whose
digit string misses the region list: at such a token the nested rewrite
evaluates codeBlocks[index] to undefined (Export.js line 98). -/
def tokenMissB (cbs : List Text) (pfx : Text) : Nat → Text → Bool
  | 0, _ => false
  | _ + 1, [] => false
  | f + 1, c :: cs =>
    match tokenAt pfx (c :: cs) with
    | some (ds, rest) => (jsGet cbs ds).isNone || tokenMissB cbs pfx f rest
    | none => tokenMissB cbs pfx f cs

/-- True when some div span matched by the nested rewrite holds a code
placeholder token with an out-of-range index. -/
def nestedThrowsB (cbs : List Text) : Nat → Text → Bool
  | 0, _ => false
  | f + 1, s =>
    match divFind s with
    | some (_, m, b) =>
      tokenMissB cbs MULTI_LINE_CODE_PLACEHOLDER m.length m || nestedThrowsB cbs f b
    | none => false

/-- Faithful marker of the one failure of transform: true exactly when the
nested rewrite (Export.js lines 94-107) looks up an undefined code block,
so the replace call at line 99 throws a TypeError that propagates out of
Export instead of any document being produced.  The total function
transformT renders that branch as the literal text undefined; statements
that promise a complete output document hold on the inputs where this
marker is false. -/
def transformThrowsB (markdown : Text) : Bool :=
  let pre := transformPre markdown
  nestedThrowsB pre.1 pre.2.2.length pre.2.2

/-! ### The export path resolver (Export.js lines 194-213) -/

/-- Directory and extension-free base name of a URL, the dir and name
fields of the POSIX path.parse used at Export.js line 196. -/
def dropTrailingSlashes (s : Text) : Text :=
  (s.reverse.dropWhile (fun c => c == '/')).reverse

def stripExt (b : Text) : Text :=
  match lastIdxOf '.' b with
  | none => b
  | some 0 => b
  | some j => b.take j

def posixParse (s : Text) : Text × Text :=
  if s = [] then ([], [])
  else
    let t := dropTrailingSlashes s
    if t = [] then (['/'], [])
    else
      match lastIdxOf '/' t with
      | none => ([], stripExt t)
      | some 0 => (['/'], stripExt (t.drop 1))
      | some j => (t.take j, stripExt (t.drop (j + 1)))

/-- The directory part with a guaranteed trailing slash, Export.js lines
197-201. -/
def dirSlashOf (url : Text) : Text :=
  let d := (posixParse url).1
  if d.getLast? = some '/' then d else d ++ strT "/"

/-- The export path rules, Export.js lines 196-213: first matching rule
wins; the result, directory plus base name, is the value recorded in the
export URL map. -/
def resolvePath (url : Text) (tags : List Text) : Text :=
  let ep := dirSlashOf url
  let ep :=
    if tags.contains (strT "case-study") then ep ++ strT "case-studies/"
    else if tags.contains (strT "new-to-the-web") then ep ++ strT "blog/"
    else if ep = strT "/" then ep ++ strT "articles/"
    else ep
  ep ++ (posixParse url).2

/-- Map.set of the export URL map: update in place when the key exists,
append otherwise. -/
def jsMapSet (m : List (Text × Text)) (k v : Text) : List (Text × Text) :=
  if m.any (fun kv => kv.1 = k) then
    m.map (fun kv => if kv.1 = k then (k, v) else kv)
  else m ++ [(k, v)]

/-! ### The export orchestrator (Export, Export.js lines 126-241) -/

/-- The page data the orchestrator reads through findByUrl: optional fields
model the optional-chaining lookups of lines 137-158. -/
structure Page where
  url : Text
  title : Text
  content : Option Text
  authors : Option (List Text)
  description : Option Text
  tags : Option (List Text)

/-- The external collaborators: the authors table lookup (the en title of
an author entry, none when the id is absent) and the template renderer
(which reports either a rendered text or an error). -/
structure Collab where
  authorsTable : Text → Option Text
  render : Text → Except Text Text

/-- The steps of one page export, in source order: pluck of the raw
shortcodes (line 185), path resolution (lines 196-210), the export URL map
write (line 213), render delegation (line 218), raw shortcode reinsertion
(line 232), the transform call (line 234) and the file write (line 238). -/
inductive ExportEvent where
  | pluckRawShortcodes
  | resolveExportPath
  | recordExportUrl
  | renderTemplate
  | insertRawShortcodes
  | runTransform
  | writeFile
deriving DecidableEq

/-- The author error raised at Export.js line 149 when the first listed
author id (or undefined, for an empty author list) is absent from the
authors table: the property access on undefined throws. -/
def errAuthorLookup : Text :=
  strT "TypeError: Cannot read properties of undefined (reading title)"

/-- The optional description and page_type front matter fields, Export.js
lines 152-160: a present but empty description is falsy and omitted. -/
def addOptional (p : Page) (fm : List (Text × Text)) : List (Text × Text) :=
  let fm :=
    match p.description with
    | some d => if d = [] then fm else fm ++ [(strT "description", d)]
    | none => fm
  if (strT "/learn").isPrefixOf p.url then fm ++ [(strT "page_type", strT "course")]
  else fm

/-- The front matter record, Export.js lines 143-160: fixed defaults, then
author_name when an authors array is present (an empty array is truthy, so
the lookup still runs, against the key undefined), then the optional
fields. -/
def buildFrontMatter (p : Page) (table : Text → Option Text) :
    Except Text (List (Text × Text)) :=
  let fm0 := [(strT "project_path", strT "/_project.yaml"),
              (strT "book_path", strT "/_book.yaml")]
  match p.authors with
  | none => Except.ok (addOptional p fm0)
  | some as =>
    let key := match as.head? with
      | some a => a
      | none => strT "undefined"
    match table key with
    | none => Except.error errAuthorLookup
    | some name => Except.ok (addOptional p (fm0 ++ [(strT "author_name", name)]))

def serializeFrontMatter (fm : List (Text × Text)) : Text :=
  joinNl (fm.map (fun kv => kv.1 ++ strT ": " ++ kv.2))

/-- The escaping JSON.stringify applies inside a string literal, for the
characters that can occur in author ids. -/
def jsonEscape : Text → Text
  | [] => []
  | c :: cs =>
    if c = '\\' then '\\' :: '\\' :: jsonEscape cs
    else if c = '"' then '\\' :: '"' :: jsonEscape cs
    else c :: jsonEscape cs

def jsonQuote (a : Text) : Text := strT "\"" ++ jsonEscape a ++ strT "\""

def joinComma : List Text → Text
  | [] => []
  | [x] => x
  | x :: xs => x ++ strT "," ++ joinComma xs

def jsonList (as : List Text) : Text :=
  strT "[" ++ joinComma (as.map jsonQuote) ++ strT "]"

/-- The template header literal, Export.js lines 167-179: serialized front
matter, the import and include preamble, the level-1 heading, and the
authors macro line only when authors are present. -/
def mkTemplate (p : Page) (fm : List (Text × Text)) : Text :=
  serializeFrontMatter fm ++
  strT "\n\n\x7b% import \"/_macros.html\" as macros %\x7d\n\x7b% include \"/_styles/style.md\" %\x7d\n\n# " ++
  p.title ++ strT "\n" ++
  (match p.authors with
   | some as => strT "\n\x7b\x7b macros.Authors(" ++ jsonList as ++ strT ") \x7d\x7d\n"
   | none => [])

/-- The render error substitution, Export.js lines 218-228. -/
def renderOrPlaceholder (r : Except Text Text) : Text :=
  match r with
  | Except.error err => strT "Could not render template: " ++ err
  | Except.ok res => res

/-- The Export orchestrator, Export.js lines 126-241, over the current
export URL map.  A page without source content exports nothing (line 139).
The author lookup is the only propagated failure.  On success the result
carries the final document, the updated URL map and the event trace in
source order. -/
def runExport (p : Page) (c : Collab) (urls : List (Text × Text)) :
    Except Text (Text × List (Text × Text) × List ExportEvent) :=
  match p.content with
  | none => Except.ok ([], urls, [])
  | some source =>
    if source = [] then Except.ok ([], urls, [])
    else
      match buildFrontMatter p c.authorsTable with
      | Except.error e => Except.error e
      | Except.ok fm =>
        let rawRes := pluck rawFind RAW_PLACEHOLDER source
        let tags := p.tags.getD []
        let exportPath := resolvePath p.url tags
        let urls2 := jsMapSet urls p.url exportPath
        let markdown := renderOrPlaceholder (c.render rawRes.2)
        let markdown2 := insertW rawRes.1 RAW_PLACEHOLDER markdown
        let doc := mkTemplate p fm ++ transformT markdown2
        Except.ok (doc, urls2,
          [ExportEvent.pluckRawShortcodes, ExportEvent.resolveExportPath,
           ExportEvent.recordExportUrl, ExportEvent.renderTemplate,
           ExportEvent.insertRawShortcodes, ExportEvent.runTransform,
           ExportEvent.writeFile])

/-- Literal-pattern matcher for the protector: the leftmost occurrence of a
literal pattern, in the first-match shape pluck consumes. -/
def matcherOf (pat : Text) (s : Text) : Option (Text × Text × Text) :=
  (splitOnFirst pat s).map (fun r => (r.1, pat, r.2))

/-- Boolean check along the pluck decomposition of a text: no match is
immediately followed by a digit (such a digit would be absorbed into the
following placeholder token). -/
def noDigitAfterB (find : Text → Option (Text × Text × Text)) : Nat → Text → Bool
  | 0, _ => true
  | f + 1, s =>
    match find s with
    | none => true
    | some (_, _, b) =>
      (match b.head? with
       | some d => !d.isDigit
       | none => true) && noDigitAfterB find f b

/-- Substring occurrence test. -/
def occursB (pat s : Text) : Bool := (splitOnFirst pat s).isSome

/-! ### Concrete fixtures used to instantiate the theorems -/

/-- A page outside the root directory whose tags match no path rule. -/
def pageFooBar : Page :=
  { url := strT "/foo/bar", title := strT "T", content := some (strT "Hello"),
    authors := none, description := none, tags := some [strT "x"] }

/-- A page whose whole source is a raw region containing a screenshot
figure tag, one of the dialect rewrites own substitution targets. -/
def pageRawFigure : Page :=
  { url := strT "/x/y", title := strT "T",
    content := some (strT "\x7b% raw %\x7d<figure class=\"screenshot\">\x7b% endraw %\x7d"),
    authors := none, description := none, tags := none }

/-- A page that declares the single author jane. -/
def pageJane : Page :=
  { url := strT "/foo/bar", title := strT "T", content := some (strT "Hello"),
    authors := some [strT "jane"], description := none, tags := some [strT "x"] }

/-- A page that declares an empty authors list. -/
def pageEmptyAuthors : Page :=
  { url := strT "/foo/bar", title := strT "T", content := some (strT "Hello"),
    authors := some [], description := none, tags := some [strT "x"] }

/-- Collaborators with an empty authors table and a renderer that returns
its input unchanged. -/
def collabRenderId : Collab :=
  { authorsTable := fun _ => none, render := fun t => Except.ok t }

/-- Collaborators that know the author jane and whose renderer always
fails. -/
def collabJaneBoom : Collab :=
  { authorsTable := fun k => if k = strT "jane" then some (strT "Jane Doe") else none,
    render := fun _ => Except.error (strT "boom") }

/-- The front matter produced for a page with no authors, no description
and a URL outside /learn. -/
def fmDefault : List (Text × Text) :=
  [(strT "project_path", strT "/_project.yaml"), (strT "book_path", strT "/_book.yaml")]

/-! ## Theorems -/

/-- C5.  For every page whose tags include both case-study and
new-to-the-web, resolvePath appends the segment case-studies/ and never
blog/: the tag rules are tried in the fixed priority order case-study,
new-to-the-web, root-directory, and at most one rule fires. -/
theorem c5_theorem (url : Text) (tags : List Text)
    (hcs : tags.contains (strT "case-study") = true)
    (hnt : tags.contains (strT "new-to-the-web") = true) :
    resolvePath url tags = dirSlashOf url ++ strT "case-studies/" ++ (posixParse url).2 ∧
    resolvePath url tags ≠ dirSlashOf url ++ strT "blog/" ++ (posixParse url).2 := by
  have h1 : resolvePath url tags =
      dirSlashOf url ++ strT "case-studies/" ++ (posixParse url).2 := by
    simp only [resolvePath]
    rw [if_pos hcs]
  refine ⟨h1, ?_⟩
  rw [h1]
  intro h2
  rw [List.append_assoc, List.append_assoc] at h2
  have h3 := List.append_cancel_left h2
  have h4 := congrArg List.head? h3
  rw [show strT "case-studies/" = 'c' :: strT "ase-studies/" from rfl,
      show strT "blog/" = 'b' :: strT "log/" from rfl,
      List.cons_append, List.cons_append] at h4
  simp only [List.head?_cons, Option.some.injEq] at h4
  exact absurd h4 (by decide)

/-- C5 witness: both tags present on a concrete page. -/
theorem c5_witness :
    ([strT "case-study", strT "new-to-the-web"].contains (strT "case-study") = true) ∧
    ([strT "case-study", strT "new-to-the-web"].contains (strT "new-to-the-web") = true) ∧
    (resolvePath (strT "/foo/bar") [strT "case-study", strT "new-to-the-web"] =
      dirSlashOf (strT "/foo/bar") ++ strT "case-studies/" ++
        (posixParse (strT "/foo/bar")).2 ∧
     resolvePath (strT "/foo/bar") [strT "case-study", strT "new-to-the-web"] ≠
      dirSlashOf (strT "/foo/bar") ++ strT "blog/" ++ (posixParse (strT "/foo/bar")).2) :=
  ⟨by decide, by decide,
   c5_theorem (strT "/foo/bar") [strT "case-study", strT "new-to-the-web"]
     (by decide) (by decide)⟩

/-- C1 counterexample: for the page with URL /foo/bar and tags matching no
rule, the recorded export path is /foo/bar, not /articles/bar as the claim
states. -/
theorem c1_counterexample :
    ((runExport pageFooBar collabRenderId []).toOption.map (fun r => r.2.1)) =
      some [(strT "/foo/bar", strT "/foo/bar")] ∧
    strT "/foo/bar" ≠ strT "/articles/bar" := by
  constructor
  · rfl
  · decide

/-- C1 amended.  For a page whose URL is /foo/bar and whose tags include
neither case-study nor new-to-the-web, resolvePath preserves the directory
and yields /foo/bar, which is the value recorded in the export URL map for
/foo/bar; only a root-level URL such as /bar goes under articles/. -/
theorem c1_amended_theorem (tags : List Text) (p : Page) (c : Collab)
    (m : List (Text × Text)) (src : Text) (fm : List (Text × Text))
    (hcs : tags.contains (strT "case-study") = false)
    (hnt : tags.contains (strT "new-to-the-web") = false)
    (hurl : p.url = strT "/foo/bar") (htags : p.tags = some tags)
    (hc : p.content = some src) (hs : src ≠ [])
    (hfm : buildFrontMatter p c.authorsTable = Except.ok fm) :
    resolvePath (strT "/foo/bar") tags = strT "/foo/bar" ∧
    resolvePath (strT "/bar") tags = strT "/articles/bar" ∧
    ((runExport p c m).toOption.map (fun r => r.2.1)) =
      some (jsMapSet m (strT "/foo/bar") (strT "/foo/bar")) := by
  have h1 : resolvePath (strT "/foo/bar") tags = strT "/foo/bar" := by
    simp only [resolvePath]
    rw [hcs, hnt]
    decide
  have h2 : resolvePath (strT "/bar") tags = strT "/articles/bar" := by
    simp only [resolvePath]
    rw [hcs, hnt]
    decide
  refine ⟨h1, h2, ?_⟩
  simp only [runExport, hc, hfm]
  rw [if_neg hs]
  simp only [Except.toOption, Option.map]
  rw [hurl, htags]
  simp only [Option.getD_some]
  rw [h1]

/-- C1 witness for the amended theorem, at the concrete page. -/
theorem c1_amended_witness :
    ([strT "x"].contains (strT "case-study") = false) ∧
    ([strT "x"].contains (strT "new-to-the-web") = false) ∧
    pageFooBar.url = strT "/foo/bar" ∧
    pageFooBar.tags = some [strT "x"] ∧
    pageFooBar.content = some (strT "Hello") ∧
    strT "Hello" ≠ [] ∧
    buildFrontMatter pageFooBar collabRenderId.authorsTable = Except.ok fmDefault ∧
    (resolvePath (strT "/foo/bar") [strT "x"] = strT "/foo/bar" ∧
     resolvePath (strT "/bar") [strT "x"] = strT "/articles/bar" ∧
     ((runExport pageFooBar collabRenderId []).toOption.map (fun r => r.2.1)) =
       some (jsMapSet [] (strT "/foo/bar") (strT "/foo/bar"))) :=
  ⟨by decide, by decide, rfl, rfl, rfl, by decide, rfl,
   c1_amended_theorem [strT "x"] pageFooBar collabRenderId [] (strT "Hello") fmDefault
     (by decide) (by decide) rfl rfl rfl (by decide) rfl⟩

/-- C3 counterexample: a fenced code region whose content holds a raw
start marker is not reproduced character for character by transform; the
final raw-to-verbatim substitution rewrites the protected content after it
has been restored. -/
theorem c3_counterexample :
    transformT (strT "```\n\x7b% raw %\x7d\n```") = strT "```\n\x7b% verbatim %\x7d\n```" ∧
    transformT (strT "```\n\x7b% raw %\x7d\n```") ≠ strT "```\n\x7b% raw %\x7d\n```" := by
  constructor
  · rfl
  · intro h
    rw [show transformT (strT "```\n\x7b% raw %\x7d\n```") =
        strT "```\n\x7b% verbatim %\x7d\n```" from rfl] at h
    exact absurd h (by decide)

/-- C3 amended.  Code regions are protected from the structural class
rewrites: a screenshot figure tag inside a fenced block survives transform
unchanged while the same tag outside the block is rewritten; however the
final raw-to-verbatim substitutions run over the restored document, so
code content holding raw markers is altered. -/
theorem c3_amended_theorem :
    transformT
        (strT "```\n<figure class=\"screenshot\">\n```\ntext <figure class=\"screenshot\"> more") =
      strT "```\n<figure class=\"screenshot\">\n```\ntext <figure> more" := by
  rfl

/-- C2 counterexample: for the page whose source is a raw region holding a
screenshot figure tag, the final output does not contain the verbatim
region with the interior unchanged; the interior was rewritten. -/
theorem c2_counterexample :
    ((runExport pageRawFigure collabRenderId []).toOption.map
      (fun r =>
        (occursB (strT "\x7b% verbatim %\x7d<figure class=\"screenshot\">\x7b% endverbatim %\x7d") r.1,
         occursB (strT "\x7b% verbatim %\x7d<figure>\x7b% endverbatim %\x7d") r.1))) =
      some (false, true) := by
  rfl

/-- C2 amended.  A raw region does survive the template-rendering pass
protected and its markers become verbatim markers, but after reinsertion
the Dialect Rewriter substitutions apply to its interior: for the page
whose source is a raw region around a screenshot figure tag, the final
output contains the verbatim region with the figure tag rewritten. -/
theorem c2_amended_theorem :
    ((runExport pageRawFigure collabRenderId []).toOption.map
      (fun r => occursB (strT "\x7b% verbatim %\x7d<figure>\x7b% endverbatim %\x7d") r.1)) =
      some true := by
  rfl

/-- C6.  A page declaring a non-empty authors list whose first author id
is absent from the authors table makes Export fail with a propagated
error and produce no output document. -/
theorem c6_theorem (p : Page) (c : Collab) (m : List (Text × Text)) (src a : Text)
    (as : List Text) (hc : p.content = some src) (hs : src ≠ [])
    (ha : p.authors = some (a :: as)) (ht : c.authorsTable a = none) :
    runExport p c m = Except.error errAuthorLookup := by
  simp only [runExport, hc]
  rw [if_neg hs]
  simp only [buildFrontMatter, ha, List.head?_cons, ht]

/-- C6 witness: the page declaring the unknown author jane. -/
theorem c6_witness :
    pageJane.content = some (strT "Hello") ∧
    strT "Hello" ≠ [] ∧
    pageJane.authors = some (strT "jane" :: []) ∧
    collabRenderId.authorsTable (strT "jane") = none ∧
    runExport pageJane collabRenderId [] = Except.error errAuthorLookup :=
  ⟨rfl, by decide, rfl, rfl,
   c6_theorem pageJane collabRenderId [] (strT "Hello") (strT "jane") []
     rfl (by decide) rfl rfl⟩

/-- C10.  A page declaring an empty authors list also makes Export fail
with a propagated error: the empty array is truthy, so the author branch
runs and looks the authors table up with an undefined id. -/
theorem c10_theorem (p : Page) (c : Collab) (m : List (Text × Text)) (src : Text)
    (hc : p.content = some src) (hs : src ≠ [])
    (ha : p.authors = some [])
    (ht : c.authorsTable (strT "undefined") = none) :
    runExport p c m = Except.error errAuthorLookup := by
  simp only [runExport, hc]
  rw [if_neg hs]
  simp only [buildFrontMatter, ha, List.head?_nil, ht]

/-- C10 witness: the page declaring an empty authors list. -/
theorem c10_witness :
    pageEmptyAuthors.content = some (strT "Hello") ∧
    strT "Hello" ≠ [] ∧
    pageEmptyAuthors.authors = some [] ∧
    collabRenderId.authorsTable (strT "undefined") = none ∧
    runExport pageEmptyAuthors collabRenderId [] = Except.error errAuthorLookup :=
  ⟨rfl, by decide, rfl, rfl,
   c10_theorem pageEmptyAuthors collabRenderId [] (strT "Hello")
     rfl (by decide) rfl rfl⟩

/-- C7 counterexample: the claim fails for a renderer whose error text
wraps an out-of-range code placeholder token in a div container.  The
substituted body reaches transform, the nested rewrite looks up
codeBlocks[0], which is undefined because no fenced block was plucked
from this body, and the replace call at Export.js line 99 throws a
TypeError that propagates: Export produces no output document.
transformThrowsB, the faithful marker of that branch, is true of the
exact body that Export hands to transform here. -/
theorem c7_counterexample :
    transformThrowsB (insertW (pluck rawFind RAW_PLACEHOLDER (strT "Hello")).1
      RAW_PLACEHOLDER (strT "Could not render template: " ++
        strT "<div>MULTI_LINE_CODE_PLACEHOLDER_0</div>")) = true := by
  rfl

/-- C7 amended.  When the rendering collaborator reports an error, Export
does not propagate the failure: the explanatory placeholder string
replaces the rendered body and a complete output document is still
produced, provided the substituted body does not put a code placeholder
token with an out-of-range index inside a div container; in that
exceptional case the nested rewrite throws a TypeError that propagates
(Export.js line 99), which the hypothesis on transformThrowsB excludes. -/
theorem c7_amended_theorem (p : Page) (c : Collab) (m : List (Text × Text)) (src e : Text)
    (fm : List (Text × Text)) (hc : p.content = some src) (hs : src ≠ [])
    (hfm : buildFrontMatter p c.authorsTable = Except.ok fm)
    (hr : c.render (pluck rawFind RAW_PLACEHOLDER src).2 = Except.error e)
    (hnothrow : transformThrowsB (insertW (pluck rawFind RAW_PLACEHOLDER src).1
      RAW_PLACEHOLDER (strT "Could not render template: " ++ e)) = false) :
    runExport p c m = Except.ok
      (mkTemplate p fm ++ transformT (insertW (pluck rawFind RAW_PLACEHOLDER src).1
          RAW_PLACEHOLDER (strT "Could not render template: " ++ e)),
       jsMapSet m p.url (resolvePath p.url (p.tags.getD [])),
       [ExportEvent.pluckRawShortcodes, ExportEvent.resolveExportPath,
        ExportEvent.recordExportUrl, ExportEvent.renderTemplate,
        ExportEvent.insertRawShortcodes, ExportEvent.runTransform,
        ExportEvent.writeFile]) := by
  simp only [runExport, hc, hfm, renderOrPlaceholder, hr]
  rw [if_neg hs]

/-- C7 witness for the amended theorem: the failing renderer on the page
with author jane; the error text boom contains no div-wrapped token. -/
theorem c7_amended_witness :
    pageJane.content = some (strT "Hello") ∧
    strT "Hello" ≠ [] ∧
    buildFrontMatter pageJane collabJaneBoom.authorsTable =
      Except.ok (fmDefault ++ [(strT "author_name", strT "Jane Doe")]) ∧
    collabJaneBoom.render (pluck rawFind RAW_PLACEHOLDER (strT "Hello")).2 =
      Except.error (strT "boom") ∧
    transformThrowsB (insertW (pluck rawFind RAW_PLACEHOLDER (strT "Hello")).1
      RAW_PLACEHOLDER (strT "Could not render template: " ++ strT "boom")) = false ∧
    runExport pageJane collabJaneBoom [] = Except.ok
      (mkTemplate pageJane (fmDefault ++ [(strT "author_name", strT "Jane Doe")]) ++
        transformT (insertW (pluck rawFind RAW_PLACEHOLDER (strT "Hello")).1
          RAW_PLACEHOLDER (strT "Could not render template: " ++ strT "boom")),
       jsMapSet [] pageJane.url (resolvePath pageJane.url (pageJane.tags.getD [])),
       [ExportEvent.pluckRawShortcodes, ExportEvent.resolveExportPath,
        ExportEvent.recordExportUrl, ExportEvent.renderTemplate,
        ExportEvent.insertRawShortcodes, ExportEvent.runTransform,
        ExportEvent.writeFile]) :=
  ⟨rfl, by decide, rfl, rfl, rfl,
   c7_amended_theorem pageJane collabJaneBoom [] (strT "Hello") (strT "boom")
     (fmDefault ++ [(strT "author_name", strT "Jane Doe")]) rfl (by decide) rfl rfl rfl⟩

/-- C9 counterexample: on a concrete page the export URL map is written
before the render delegation and before the Dialect Rewriter runs, not
after them as the claim states. -/
theorem c9_counterexample :
    ((runExport pageFooBar collabRenderId []).toOption.map
      (fun r => decide
        (r.2.2.indexOf ExportEvent.recordExportUrl <
           r.2.2.indexOf ExportEvent.runTransform ∧
         r.2.2.indexOf ExportEvent.recordExportUrl <
           r.2.2.indexOf ExportEvent.renderTemplate))) = some true := by
  rfl

/-- C9 amended.  In the orchestrator sequence the export path is resolved
and the URL mapping recorded immediately after the raw shortcode pluck and
before the render delegation, the raw shortcode reinsertion and the
Dialect Rewriter; the rendering context already carries the resolved
export path. -/
theorem c9_amended_theorem (p : Page) (c : Collab) (m : List (Text × Text))
    (src : Text) (fm : List (Text × Text))
    (hc : p.content = some src) (hs : src ≠ [])
    (hfm : buildFrontMatter p c.authorsTable = Except.ok fm) :
    ((runExport p c m).toOption.map (fun r => r.2.2)) =
      some [ExportEvent.pluckRawShortcodes, ExportEvent.resolveExportPath,
            ExportEvent.recordExportUrl, ExportEvent.renderTemplate,
            ExportEvent.insertRawShortcodes, ExportEvent.runTransform,
            ExportEvent.writeFile] := by
  simp only [runExport, hc, hfm]
  rw [if_neg hs]
  rfl

/-- C9 witness for the amended theorem. -/
theorem c9_amended_witness :
    pageFooBar.content = some (strT "Hello") ∧
    strT "Hello" ≠ [] ∧
    buildFrontMatter pageFooBar collabRenderId.authorsTable = Except.ok fmDefault ∧
    ((runExport pageFooBar collabRenderId []).toOption.map (fun r => r.2.2)) =
      some [ExportEvent.pluckRawShortcodes, ExportEvent.resolveExportPath,
            ExportEvent.recordExportUrl, ExportEvent.renderTemplate,
            ExportEvent.insertRawShortcodes, ExportEvent.runTransform,
            ExportEvent.writeFile] :=
  ⟨rfl, by decide, rfl,
   c9_amended_theorem pageFooBar collabRenderId [] (strT "Hello") fmDefault
     rfl (by decide) rfl⟩

/-- C4 counterexample: restore after extract is not the identity for every
text and pattern; a text that already contains a placeholder-shaped token
of the chosen prefix comes back as the text undefined. -/
theorem c4_counterexample :
    insertW (pluck (matcherOf (strT "XYZ")) (strT "CODE") (strT "CODE_0")).1
        (strT "CODE") (pluck (matcherOf (strT "XYZ")) (strT "CODE") (strT "CODE_0")).2 =
      strT "undefined" ∧
    insertW (pluck (matcherOf (strT "XYZ")) (strT "CODE") (strT "CODE_0")).1
        (strT "CODE") (pluck (matcherOf (strT "XYZ")) (strT "CODE") (strT "CODE_0")).2 ≠
      strT "CODE_0" := by
  constructor
  · rfl
  · intro h
    rw [show insertW (pluck (matcherOf (strT "XYZ")) (strT "CODE") (strT "CODE_0")).1
        (strT "CODE") (pluck (matcherOf (strT "XYZ")) (strT "CODE") (strT "CODE_0")).2 =
      strT "undefined" from rfl] at h
    exact absurd h (by decide)

/-! ## Fence rewrite lemmas (C8) -/

theorem lineSplit_cons (c : Char) (cs : Text) (h : c ≠ '\n') :
    lineSplit (c :: cs) = (lineSplit cs).map (fun r => (c :: r.1, r.2)) := by
  simp [lineSplit, h]

theorem lineSplit_none (r : Text) (h : '\n' ∉ r) : lineSplit r = none := by
  induction r with
  | nil => rfl
  | cons c cs ih =>
    have hc : c ≠ '\n' := fun hx => h (by simp [hx])
    rw [lineSplit_cons c cs hc, ih (fun hx => h (by simp [hx]))]
    rfl

theorem splitNl_cons_nl (cs : Text) : splitNl ('\n' :: cs) = [] :: splitNl cs := by
  simp [splitNl]

theorem splitNl_cons (c : Char) (cs : Text) (h : c ≠ '\n') :
    splitNl (c :: cs) =
      (match splitNl cs with
       | [] => [[c]]
       | l :: ls => (c :: l) :: ls) := by
  simp [splitNl, h]

theorem splitNl_ne_nil (s : Text) : splitNl s ≠ [] := by
  cases s with
  | nil => simp [splitNl]
  | cons c cs =>
    by_cases hc : c = '\n'
    · subst hc
      rw [splitNl_cons_nl]
      simp
    · rw [splitNl_cons c cs hc]
      cases splitNl cs <;> simp

theorem mem_splitNl (x : Text) : ∀ u ∈ splitNl x, ∀ c ∈ u, c ∈ x := by
  induction x with
  | nil =>
    intro u hu c hc
    simp [splitNl] at hu
    subst hu
    simp at hc
  | cons b bs ih =>
    intro u hu c hc
    by_cases hb : b = '\n'
    · subst hb
      rw [splitNl_cons_nl] at hu
      rcases List.mem_cons.mp hu with h1 | h1
      · subst h1
        simp at hc
      · exact List.mem_cons_of_mem _ (ih u h1 c hc)
    · rw [splitNl_cons b bs hb] at hu
      cases hbs : splitNl bs with
      | nil => exact absurd hbs (splitNl_ne_nil bs)
      | cons l ls =>
        rw [hbs] at hu
        rcases List.mem_cons.mp hu with h1 | h1
        · subst h1
          rcases List.mem_cons.mp hc with h2 | h2
          · simp [h2]
          · have h3 := ih l (by rw [hbs]; simp) c h2
            simp [h3]
        · have h3 := ih u (by rw [hbs]; exact List.mem_cons_of_mem _ h1) c hc
          simp [h3]

theorem digitChar_isDigit : ∀ d : Nat, d < 10 → (Char.ofNat (48 + d)).isDigit = true := by
  decide

theorem digitChar_toNat : ∀ d : Nat, d < 10 → (Char.ofNat (48 + d)).toNat = 48 + d := by
  decide

theorem parseDigits_append_single (xs : Text) (c : Char) :
    parseDigits (xs ++ [c]) = parseDigits xs * 10 + (c.toNat - 48) := by
  simp [parseDigits, List.foldl_append]

theorem natReprAux_spec (f : Nat) : ∀ n : Nat, n < f →
    (∀ c ∈ natReprAux f n, c.isDigit = true) ∧ natReprAux f n ≠ [] ∧
      parseDigits (natReprAux f n) = n := by
  induction f with
  | zero => intro n hn; omega
  | succ f ih =>
    intro n hn
    by_cases h10 : n < 10
    · rw [show natReprAux (f + 1) n = [Char.ofNat (48 + n)] from by
        simp only [natReprAux, if_pos h10]]
      refine ⟨?_, by simp, ?_⟩
      · intro c hc
        simp at hc
        subst hc
        exact digitChar_isDigit n h10
      · show parseDigits ([] ++ [Char.ofNat (48 + n)]) = n
        rw [parseDigits_append_single, digitChar_toNat n h10]
        simp [parseDigits]
    · rw [show natReprAux (f + 1) n = natReprAux f (n / 10) ++ [Char.ofNat (48 + n % 10)] from by
        simp only [natReprAux, if_neg h10]]
      have hdiv : n / 10 < n := Nat.div_lt_self (by omega) (by omega)
      obtain ⟨ihd, ihn, ihp⟩ := ih (n / 10) (by omega)
      refine ⟨?_, by simp, ?_⟩
      · intro c hc
        rcases List.mem_append.mp hc with h1 | h1
        · exact ihd c h1
        · simp at h1
          subst h1
          exact digitChar_isDigit (n % 10) (by omega)
      · rw [parseDigits_append_single, ihp, digitChar_toNat (n % 10) (by omega)]
        omega

theorem natRepr_digits (n : Nat) : ∀ c ∈ natRepr n, c.isDigit = true :=
  (natReprAux_spec (n + 1) n (Nat.lt_succ_self n)).1

theorem natRepr_ne_nil (n : Nat) : natRepr n ≠ [] :=
  (natReprAux_spec (n + 1) n (Nat.lt_succ_self n)).2.1

theorem parseDigits_natRepr (n : Nat) : parseDigits (natRepr n) = n :=
  (natReprAux_spec (n + 1) n (Nat.lt_succ_self n)).2.2

theorem jsGet_natRepr (L : List Text) (n : Nat) : jsGet L (natRepr n) = L.get? n := by
  simp [jsGet, parseDigits_natRepr]

theorem takeDigits_split (r : Text) : (takeDigits r).1 ++ (takeDigits r).2 = r := by
  induction r with
  | nil => rfl
  | cons c cs ih =>
    by_cases hc : c.isDigit = true
    · simp only [takeDigits, if_pos hc]
      rw [List.cons_append, ih]
    · simp only [takeDigits, if_neg hc]
      rfl

theorem takeDigits_append (ds rest : Text) (hds : ∀ c ∈ ds, c.isDigit = true)
    (hr : ∀ d, rest.head? = some d → d.isDigit = false) :
    takeDigits (ds ++ rest) = (ds, rest) := by
  induction ds with
  | nil =>
    cases rest with
    | nil => rfl
    | cons d tail =>
      have hd : d.isDigit = false := hr d rfl
      show takeDigits (d :: tail) = ([], d :: tail)
      simp only [takeDigits, hd]
      rfl
  | cons c cs ih =>
    have hc : c.isDigit = true := hds c (by simp)
    rw [List.cons_append]
    simp only [takeDigits, if_pos hc]
    rw [ih (fun x hx => hds x (by simp [hx]))]

theorem tokenReplaceF_nil (r : Text → Text) (pfx : Text) (f : Nat) :
    tokenReplaceF r pfx f [] = [] := by
  cases f <;> rfl

theorem tokenReplaceF_cons_none (r : Text → Text) (pfx : Text) (f : Nat) (c : Char)
    (cs : Text) (h : tokenAt pfx (c :: cs) = none) :
    tokenReplaceF r pfx (f + 1) (c :: cs) = c :: tokenReplaceF r pfx f cs := by
  simp only [tokenReplaceF, h]

theorem tokenReplaceF_cons_some (r : Text → Text) (pfx : Text) (f : Nat) (c : Char)
    (cs ds rest : Text) (h : tokenAt pfx (c :: cs) = some (ds, rest)) :
    tokenReplaceF r pfx (f + 1) (c :: cs) = r ds ++ tokenReplaceF r pfx f rest := by
  simp only [tokenReplaceF, h]

theorem tokenAt_rest_length (pfx s ds rest : Text) (h : tokenAt pfx s = some (ds, rest)) :
    rest.length < s.length := by
  by_cases hpre : (pfx ++ ['_']).isPrefixOf s = true
  · have hlen : pfx.length + 1 ≤ s.length := by
      rw [List.isPrefixOf_iff_prefix] at hpre
      have := hpre.length_le
      simp at this
      omega
    simp only [tokenAt, hpre, if_true] at h
    by_cases hds : (takeDigits (s.drop (pfx.length + 1))).1 = []
    · simp [hds] at h
    · simp only [if_neg hds] at h
      obtain ⟨h1, h2⟩ := Prod.mk.inj (Option.some.inj h)
      have hsp := takeDigits_split (s.drop (pfx.length + 1))
      have hlen2 : (takeDigits (s.drop (pfx.length + 1))).1.length +
          (takeDigits (s.drop (pfx.length + 1))).2.length =
          s.length - (pfx.length + 1) := by
        have := congrArg List.length hsp
        simp at this
        omega
      subst h2
      omega
  · simp [tokenAt, hpre] at h

theorem tokenReplaceF_congr (r : Text → Text) (pfx : Text) (f : Nat) :
    ∀ (g : Nat) (s : Text), s.length ≤ f → s.length ≤ g →
      tokenReplaceF r pfx f s = tokenReplaceF r pfx g s := by
  induction f with
  | zero =>
    intro g s hf _
    have : s = [] := List.length_eq_zero.mp (Nat.le_zero.mp hf)
    subst this
    rw [tokenReplaceF_nil, tokenReplaceF_nil]
  | succ f ih =>
    intro g s hf hg
    match s with
    | [] => rw [tokenReplaceF_nil, tokenReplaceF_nil]
    | c :: cs =>
      match g, hg with
      | g + 1, hg =>
        have hcc : (c :: cs).length = cs.length + 1 := by simp
        cases htok : tokenAt pfx (c :: cs) with
        | none =>
          rw [tokenReplaceF_cons_none r pfx f c cs htok,
            tokenReplaceF_cons_none r pfx g c cs htok,
            ih g cs (by omega) (by omega)]
        | some dr =>
          rw [tokenReplaceF_cons_some r pfx f c cs dr.1 dr.2 (by rw [htok]),
            tokenReplaceF_cons_some r pfx g c cs dr.1 dr.2 (by rw [htok])]
          have hrl : dr.2.length < (c :: cs).length :=
            tokenAt_rest_length pfx (c :: cs) dr.1 dr.2 (by rw [htok])
          rw [ih g dr.2 (by omega) (by omega)]

theorem tokenAt_none_of_not_infix (pfx t : Text) (h : ¬ pfx <:+: t) :
    tokenAt pfx t = none := by
  by_cases hpre : (pfx ++ ['_']).isPrefixOf t = true
  · exfalso
    rw [List.isPrefixOf_iff_prefix] at hpre
    exact h (((List.prefix_append pfx ['_']).trans hpre).isInfix)
  · simp [tokenAt, hpre]

theorem tokenAt_straddle (pfx : Text) (hu : ∀ c ∈ pfx, c ≠ '_') (a₂ X : Text)
    (ha₂ : a₂ ≠ []) (hninf : ¬ pfx <:+: a₂) :
    tokenAt pfx (a₂ ++ (pfx ++ '_' :: X)) = none := by
  by_cases hpre : (pfx ++ ['_']).isPrefixOf (a₂ ++ (pfx ++ '_' :: X)) = true
  · exfalso
    rw [List.isPrefixOf_iff_prefix] at hpre
    by_cases hk : pfx.length + 1 ≤ a₂.length
    · have h1 : pfx ++ ['_'] <+: a₂ :=
        List.prefix_of_prefix_length_le hpre (List.prefix_append a₂ (pfx ++ '_' :: X))
          (by simp; omega)
      exact hninf ((List.prefix_append pfx ['_']).trans h1).isInfix
    · push_neg at hk
      have hk1 : 1 ≤ a₂.length := by
        cases a₂ with
        | nil => exact absurd rfl ha₂
        | cons x xs => simp
      obtain ⟨t, ht⟩ := hpre
      have hP : ((pfx ++ ['_']) ++ t).get? pfx.length = some '_' := by
        rw [List.get?_append (by simp)]
        rw [List.get?_append_right (by simp)]
        simp
      rw [ht] at hP
      rw [List.get?_append_right (by omega)] at hP
      rw [List.get?_append (by omega)] at hP
      have hmem : '_' ∈ pfx := List.get?_mem hP
      exact (hu '_' hmem) rfl
  · simp [tokenAt, hpre]

theorem tokenReplace_skip (r : Text → Text) (pfx : Text) (a : Text) : ∀ u : Text,
    (∀ a₁ a₂ : Text, a = a₁ ++ a₂ → a₂ ≠ [] → tokenAt pfx (a₂ ++ u) = none) →
    tokenReplace r pfx (a ++ u) = a ++ tokenReplace r pfx u := by
  induction a with
  | nil => intro u _; rfl
  | cons c a' ih =>
    intro u hcond
    show tokenReplaceF r pfx (c :: (a' ++ u)).length (c :: (a' ++ u)) = _
    rw [show (c :: (a' ++ u)).length = (a' ++ u).length + 1 from rfl]
    rw [tokenReplaceF_cons_none r pfx (a' ++ u).length c (a' ++ u)
      (by
        have h0 := hcond [] (c :: a') rfl (by simp)
        rw [← List.cons_append]
        exact h0)]
    rw [show tokenReplaceF r pfx (a' ++ u).length (a' ++ u) = tokenReplace r pfx (a' ++ u)
      from rfl]
    rw [ih u (fun a₁ a₂ heq hne => hcond (c :: a₁) a₂ (by rw [heq]; rfl) hne)]
    rfl

theorem tokenReplace_no_token (r : Text → Text) (pfx s : Text) (h : ¬ pfx <:+: s) :
    tokenReplace r pfx s = s := by
  have hs := tokenReplace_skip r pfx s []
    (by
      intro a₁ a₂ heq hne
      rw [List.append_nil]
      apply tokenAt_none_of_not_infix
      intro hin
      exact h (hin.trans (by rw [heq]; exact (List.suffix_append a₁ a₂).isInfix)))
  rw [List.append_nil] at hs
  rw [hs, show tokenReplace r pfx [] = [] from rfl, List.append_nil]

theorem tokenAt_token (pfx : Text) (n : Nat) (u : Text)
    (hu : ∀ d, u.head? = some d → d.isDigit = false) :
    tokenAt pfx (pfx ++ '_' :: (natRepr n ++ u)) = some (natRepr n, u) := by
  have hform : pfx ++ '_' :: (natRepr n ++ u) = (pfx ++ ['_']) ++ (natRepr n ++ u) := by
    simp
  have hpre : (pfx ++ ['_']).isPrefixOf (pfx ++ '_' :: (natRepr n ++ u)) = true := by
    rw [List.isPrefixOf_iff_prefix, hform]
    exact List.prefix_append _ _
  have hdrop : (pfx ++ '_' :: (natRepr n ++ u)).drop (pfx.length + 1) = natRepr n ++ u := by
    rw [hform, show pfx.length + 1 = (pfx ++ ['_']).length from by simp, List.drop_left]
  simp only [tokenAt, hpre, if_true, hdrop]
  rw [takeDigits_append (natRepr n) u (natRepr_digits n) hu]
  simp [natRepr_ne_nil n]

theorem tokenReplace_token (r : Text → Text) (pfx : Text) (n : Nat) (u : Text)
    (hu : ∀ d, u.head? = some d → d.isDigit = false) :
    tokenReplace r pfx (pfx ++ '_' :: (natRepr n ++ u)) =
      r (natRepr n) ++ tokenReplace r pfx u := by
  have hex : ∃ c cs, pfx ++ '_' :: (natRepr n ++ u) = c :: cs := by
    cases pfx with
    | nil => exact ⟨_, _, rfl⟩
    | cons p ps => exact ⟨_, _, rfl⟩
  obtain ⟨c, cs, hccs⟩ := hex
  have htok := tokenAt_token pfx n u hu
  rw [hccs] at htok
  have hul : u.length ≤ cs.length := by
    have := congrArg List.length hccs
    simp at this
    omega
  rw [tokenReplace, hccs, show (c :: cs).length = cs.length + 1 from rfl,
    tokenReplaceF_cons_some r pfx cs.length c cs (natRepr n) u htok,
    tokenReplaceF_congr r pfx cs.length u.length u hul (Nat.le_refl _)]
  rfl

theorem pluckF_none (find : Text → Option (Text × Text × Text)) (pfx : Text)
    (f n : Nat) (s : Text) (h : find s = none) :
    pluckF find pfx (f + 1) n s = ([], s) := by
  simp only [pluckF, h]

theorem pluckF_some (find : Text → Option (Text × Text × Text)) (pfx : Text)
    (f n : Nat) (s a m b : Text) (h : find s = some (a, m, b)) :
    pluckF find pfx (f + 1) n s =
      (m :: (pluckF find pfx f (n + 1) b).1,
       a ++ (pfx ++ '_' :: (natRepr n ++ (pluckF find pfx f (n + 1) b).2))) := by
  simp only [pluckF, h]

theorem pluckF_head_not_digit (find : Text → Option (Text × Text × Text)) (pfx : Text)
    (hpfx_ne : pfx ≠ []) (hpfx_d : ∀ c ∈ pfx, c.isDigit = false)
    (hsplit : ∀ s a m b, find s = some (a, m, b) → s = a ++ m ++ b ∧ m ≠ [])
    (f n : Nat) (b : Text) (hb : ∀ d, b.head? = some d → d.isDigit = false) :
    ∀ d, (pluckF find pfx f n b).2.head? = some d → d.isDigit = false := by
  cases f with
  | zero => exact hb
  | succ f =>
    cases hf : find b with
    | none =>
      rw [pluckF_none find pfx f n b hf]
      exact hb
    | some x =>
      obtain ⟨a₂, m₂, b₂⟩ := x
      rw [pluckF_some find pfx f n b a₂ m₂ b₂ hf]
      obtain ⟨hbe, -⟩ := hsplit b a₂ m₂ b₂ hf
      cases a₂ with
      | nil =>
        cases pfx with
        | nil => exact absurd rfl hpfx_ne
        | cons p ps =>
          intro d hd
          rw [List.nil_append, List.cons_append, List.head?_cons] at hd
          have hdp : d = p := (Option.some.inj hd).symm
          subst hdp
          exact hpfx_d d (by simp)
      | cons x xs =>
        intro d hd
        simp at hd
        subst hd
        apply hb
        rw [hbe]
        rfl

theorem noDigitAfterB_some (find : Text → Option (Text × Text × Text)) (f : Nat)
    (s a m b : Text) (hf : find s = some (a, m, b))
    (h : noDigitAfterB find (f + 1) s = true) :
    (∀ d, b.head? = some d → d.isDigit = false) ∧ noDigitAfterB find f b = true := by
  simp only [noDigitAfterB, hf] at h
  rw [Bool.and_eq_true] at h
  obtain ⟨h1, h2⟩ := h
  refine ⟨?_, h2⟩
  intro d hd
  rw [hd] at h1
  simpa using h1

theorem roundtrip_aux (find : Text → Option (Text × Text × Text)) (pfx : Text)
    (L : List Text)
    (hpfx_ne : pfx ≠ [])
    (hpfx_u : ∀ c ∈ pfx, c ≠ '_')
    (hpfx_d : ∀ c ∈ pfx, c.isDigit = false)
    (hsplit : ∀ s a m b, find s = some (a, m, b) → s = a ++ m ++ b ∧ m ≠ []) :
    ∀ f : Nat, ∀ s : Text, ∀ n : Nat, s.length < f →
      ¬ pfx <:+: s →
      noDigitAfterB find f s = true →
      (∀ i, L.get? (n + i) = (pluckF find pfx f n s).1.get? i) →
      tokenReplace (insRepl L) pfx (pluckF find pfx f n s).2 = s := by
  intro f
  induction f with
  | zero => intro s n hlen; omega
  | succ f ih =>
    intro s n hlen hinf hnd hL
    cases hf : find s with
    | none =>
      rw [pluckF_none find pfx f n s hf]
      exact tokenReplace_no_token (insRepl L) pfx s hinf
    | some x =>
      obtain ⟨a, m, b⟩ := x
      obtain ⟨hs_eq, hm_ne⟩ := hsplit s a m b hf
      obtain ⟨hb_head, hnd_b⟩ := noDigitAfterB_some find f s a m b hf hnd
      have hinf_a : ¬ pfx <:+: a := by
        intro hin
        apply hinf
        apply hin.trans
        rw [hs_eq, List.append_assoc]
        exact (List.prefix_append a (m ++ b)).isInfix
      have hinf_b : ¬ pfx <:+: b := by
        intro hin
        apply hinf
        apply hin.trans
        rw [hs_eq]
        exact (List.suffix_append (a ++ m) b).isInfix
      rw [pluckF_some find pfx f n s a m b hf] at hL ⊢
      have ht'_head := pluckF_head_not_digit find pfx hpfx_ne hpfx_d hsplit
        f (n + 1) b hb_head
      rw [tokenReplace_skip (insRepl L) pfx a (pfx ++ '_' ::
          (natRepr n ++ (pluckF find pfx f (n + 1) b).2))
        (by
          intro a₁ a₂ heq hne
          apply tokenAt_straddle pfx hpfx_u a₂ _ hne
          intro hin
          exact hinf_a (hin.trans (by rw [heq]; exact (List.suffix_append a₁ a₂).isInfix)))]
      rw [tokenReplace_token (insRepl L) pfx n (pluckF find pfx f (n + 1) b).2 ht'_head]
      have hlenb : b.length < f := by
        have := congrArg List.length hs_eq
        simp at this
        have hm1 : 1 ≤ m.length := by
          cases m with
          | nil => exact absurd rfl hm_ne
          | cons y ys => simp
        omega
      have hL' : ∀ i, L.get? (n + 1 + i) = (pluckF find pfx f (n + 1) b).1.get? i := by
        intro i
        have h0 := hL (i + 1)
        rw [show n + (i + 1) = n + 1 + i from by omega, List.get?_cons_succ] at h0
        exact h0
      rw [ih b (n + 1) hlenb hinf_b hnd_b hL']
      have hL0 := hL 0
      rw [Nat.add_zero, List.get?_cons_zero] at hL0
      rw [show insRepl L (natRepr n) = m from by
        rw [insRepl, jsGet_natRepr, hL0]; rfl]
      rw [hs_eq]
      simp [List.append_assoc]

/-- C4 amended.  For every pattern and every placeholder prefix free of
underscore and digit characters, restore after extract is the identity on
every text that contains no occurrence of the prefix, provided the pattern
splits the text faithfully into nonempty matches and no match is
immediately followed by a digit (which the following placeholder token
would absorb). -/
theorem c4_amended_theorem (find : Text → Option (Text × Text × Text)) (pfx s : Text)
    (h1 : pfx ≠ [])
    (h2 : ∀ c ∈ pfx, c ≠ '_' ∧ c.isDigit = false)
    (h3 : ¬ pfx <:+: s)
    (h4 : ∀ s' a m b, find s' = some (a, m, b) → s' = a ++ m ++ b ∧ m ≠ [])
    (h5 : noDigitAfterB find (s.length + 1) s = true) :
    insertW (pluck find pfx s).1 pfx (pluck find pfx s).2 = s :=
  roundtrip_aux find pfx (pluck find pfx s).1
    h1 (fun c hc => (h2 c hc).1) (fun c hc => (h2 c hc).2) h4
    (s.length + 1) s 0 (Nat.lt_succ_self _) h3 h5
    (fun i => by rw [Nat.zero_add]; rfl)

theorem splitOnFirst_eq (pat : Text) : ∀ (s a b : Text),
    splitOnFirst pat s = some (a, b) → s = a ++ pat ++ b := by
  intro s
  induction s with
  | nil =>
    intro a b h
    by_cases hp : pat = []
    · subst hp
      simp [splitOnFirst] at h
      obtain ⟨h1, h2⟩ := h
      subst h1
      subst h2
      rfl
    · simp [splitOnFirst, hp] at h
  | cons c cs ih =>
    intro a b h
    by_cases hp : pat.isPrefixOf (c :: cs) = true
    · rw [show splitOnFirst pat (c :: cs) = some ([], (c :: cs).drop pat.length) from by
        simp [splitOnFirst, hp]] at h
      obtain ⟨h1, h2⟩ := Prod.mk.inj (Option.some.inj h)
      subst h1
      rw [List.isPrefixOf_iff_prefix] at hp
      obtain ⟨t, ht⟩ := hp
      rw [← h2, ← ht, List.drop_left]
      rfl
    · rw [show splitOnFirst pat (c :: cs) =
          (splitOnFirst pat cs).map (fun r => (c :: r.1, r.2)) from by
        simp [splitOnFirst, hp]] at h
      cases hcs : splitOnFirst pat cs with
      | none => rw [hcs] at h; simp at h
      | some r =>
        rw [hcs] at h
        obtain ⟨h1, h2⟩ := Prod.mk.inj (Option.some.inj h)
        rw [← h1, ← h2]
        have he := ih r.1 r.2 (by rw [hcs])
        rw [he]
        simp [List.append_assoc]

theorem matcherOf_sound (pat : Text) (hp : pat ≠ []) :
    ∀ s a m b, matcherOf pat s = some (a, m, b) → s = a ++ m ++ b ∧ m ≠ [] := by
  intro s a m b h
  unfold matcherOf at h
  cases hs : splitOnFirst pat s with
  | none => rw [hs] at h; simp at h
  | some r =>
    rw [hs] at h
    simp only [Option.map_some'] at h
    obtain ⟨h1, h23⟩ := Prod.mk.inj (Option.some.inj h)
    obtain ⟨h2, h3⟩ := Prod.mk.inj h23
    subst h1
    subst h2
    subst h3
    exact ⟨splitOnFirst_eq pat s r.1 r.2 (by rw [hs]), hp⟩

/-- C4 witness: a literal pattern XYZ, the prefix CODE and a text free of
the prefix, round-tripped exactly. -/
theorem c4_amended_witness :
    (strT "CODE" ≠ []) ∧
    (∀ c ∈ strT "CODE", c ≠ '_' ∧ c.isDigit = false) ∧
    (¬ strT "CODE" <:+: strT "a XYZ b") ∧
    (∀ s' a m b, matcherOf (strT "XYZ") s' = some (a, m, b) → s' = a ++ m ++ b ∧ m ≠ []) ∧
    (noDigitAfterB (matcherOf (strT "XYZ")) ((strT "a XYZ b").length + 1)
      (strT "a XYZ b") = true) ∧
    insertW (pluck (matcherOf (strT "XYZ")) (strT "CODE") (strT "a XYZ b")).1 (strT "CODE")
      (pluck (matcherOf (strT "XYZ")) (strT "CODE") (strT "a XYZ b")).2 = strT "a XYZ b" :=
  ⟨by decide, by decide, by decide, matcherOf_sound (strT "XYZ") (by decide), by decide,
   c4_amended_theorem (matcherOf (strT "XYZ")) (strT "CODE") (strT "a XYZ b")
     (by decide) (by decide) (by decide) (matcherOf_sound (strT "XYZ") (by decide))
     (by decide)⟩
